import Mathlib

/-!
Shallow embedding of `misc/collect.py` (OpenWrt firmware-selector collector).

The embedding covers the profile merger `merge_profiles` (with its inner
helpers `get_title` and `add_profile`) and the config patcher
`update_config`.  JSON objects are modelled structurally: a key that may be
absent becomes an `Option` field (`none` = key missing), `obj[k]` on a
missing key is a Python `KeyError`, modelled with `Except`.  Process
termination is modelled by `Except MergeAbort`: `.error` means the Python
process died (uncaught exception or `exit(1)`) instead of returning.
-/

namespace Collect

/-- Output image object: `{"name": ..., "type": ...}` (collect.py line 35). -/
structure OutImage where
  name : String
  type : String
deriving DecidableEq

/-- Input image entry; `name`/`type` may be absent (then `image["name"]` or
`image["type"]` raises `KeyError`). -/
structure ImageEntry where
  name : Option String
  type : Option String
deriving DecidableEq

/-- Input title entry: either an explicit `title` or `vendor`/`model`/`variant`
parts; only `model` is accessed unconditionally by `get_title`. -/
structure TitleEntry where
  title : Option String
  vendor : Option String
  model : Option String
  variant : Option String
deriving DecidableEq

/-- Profile dictionary part used by `add_profile`: the keys `images`,
`titles` and `target` it reads from the profile object. -/
structure Profile where
  images : Option (List ImageEntry)
  titles : Option (List TitleEntry)
  target : Option String
deriving DecidableEq

/-- A parsed top-level profiles.json document.  `profiles = some ps` models a
multi-profile bundle (`"profiles" in obj`); iteration order of the Python
dict (insertion order) is modelled by the association-list order. -/
structure Doc where
  metadata_version : Option Int
  version_code : Option String
  version_commit : Option String
  target : Option String
  id : Option String
  titles : Option (List TitleEntry)
  images : Option (List ImageEntry)
  profiles : Option (List (String × Profile))
deriving DecidableEq

/-- A single-profile document is passed to `add_profile` as its own profile
object (collect.py line 77 passes `obj` itself). -/
def Doc.asProfile (d : Doc) : Profile :=
  ⟨d.images, d.titles, d.target⟩

/-- Output device object stored in `output["models"][title]`; `code = none`
models the absent `"code"` key (lines 47-50). -/
structure Device where
  id : String
  target : String
  images : List OutImage
  code : Option String
deriving DecidableEq

/-- One entry of the input mapping `{<file-path>: <file-content>}`:
`.malformed` is a content on which `json.loads` raises, `.parsed d` a content
decoding to the document `d`. -/
inductive RawEntry where
  | malformed
  | parsed (d : Doc)
deriving DecidableEq

/-- The merger's accumulator `output`: `{}` before the first entry passing
the metadata check seeds it (line 22), afterwards the three-key document of
line 66.  `.empty` models the plain `{}` that lacks the `version_code`,
`download_url` and `models` keys entirely. -/
inductive MergeOut where
  | empty
  | doc (version_code : Option String) (download_url : String)
      (models : List (String × Device))
deriving DecidableEq

/-- Abnormal termination of the merge: `.uncaught` is an exception with no
handler (the process dies with a traceback), `.exitMissingKey` is the caught
`KeyError` path of lines 80-82 that calls `exit(1)`. -/
inductive MergeAbort where
  | uncaught (path : String) (exc : String)
  | exitMissingKey (path : String) (key : String)
deriving DecidableEq

/-- Characters stripped by Python `str.strip()` and matched by the regex
class `\s` (ASCII): space, tab, newline, carriage return, vertical tab,
form feed. -/
def pyWhitespace (c : Char) : Bool :=
  c = ' ' || c = '\t' || c = '\n' || c = '\r' || c = '\x0b' || c = '\x0c'

/-- Python `str.strip()`: drop leading and trailing whitespace. -/
def pyStrip (s : String) : String :=
  String.mk (((s.toList.dropWhile pyWhitespace).reverse.dropWhile pyWhitespace).reverse)

/-- Inner `get_title` (collect.py lines 24-30): explicit `title` wins,
otherwise `"{} {} {}".format(vendor, model, variant).strip()` with missing
`vendor`/`variant` defaulting to `""`; a missing `model` is a `KeyError`. -/
def get_title (t : TitleEntry) : Except String String :=
  match t.title with
  | some s => Except.ok s
  | none =>
    match t.model with
    | none => Except.error "model"
    | some m =>
      Except.ok (pyStrip ((t.vendor.getD "") ++ " " ++ m ++ " " ++ (t.variant.getD "")))

/-- The image-reduction loop of lines 33-35: keep only `name` and `type`;
the first image missing one of them raises `KeyError`. -/
def getImages : List ImageEntry → Except String (List OutImage)
  | [] => Except.ok []
  | img :: rest =>
    match img.name with
    | none => Except.error "name"
    | some n =>
      match img.type with
      | none => Except.error "type"
      | some ty =>
        match getImages rest with
        | Except.error k => Except.error k
        | Except.ok l => Except.ok (⟨n, ty⟩ :: l)

/-- Python dict assignment `models[title] = dev`: replace in place if the key
exists, else append (insertion order preserved). -/
def insertModel : List (String × Device) → String → Device → List (String × Device)
  | [], t, d => [(t, d)]
  | (t1, d1) :: rest, t, d =>
    if t1 = t then (t, d) :: rest else (t1, d1) :: insertModel rest t d

/-- Python dict lookup `models[title]` as a total function. -/
def lookupModel : List (String × Device) → String → Option Device
  | [], _ => none
  | (t1, d1) :: rest, t => if t1 = t then some d1 else lookupModel rest t

/-- Target resolution of lines 37-38: the `target` argument when given,
otherwise `profile["target"]` (a `KeyError` when that key is absent too). -/
def resolveTarget (target : Option String) (profile : Profile) : Except String String :=
  match target with
  | some t => Except.ok t
  | none =>
    match profile.target with
    | some t => Except.ok t
    | none => Except.error "target"

/-- The titles loop of lines 40-50: empty computed titles are skipped
(`continue`), the rest are written into `models` unconditionally; a per-device
`code` is attached only when `code` is not `None`. -/
def addTitles (id : String) (target : String) (images : List OutImage)
    (code : Option String) :
    List (String × Device) → List TitleEntry → Except String (List (String × Device))
  | models, [] => Except.ok models
  | models, e :: rest =>
    match get_title e with
    | Except.error k => Except.error k
    | Except.ok title =>
      if title.length = 0 then
        addTitles id target images code models rest
      else
        addTitles id target images code
          (insertModel models title ⟨id, target, images, code⟩) rest

/-- Inner `add_profile` (lines 32-50), acting on an explicit `models`
accumulator; `Except.error k` models a `KeyError` on key `k`. -/
def add_profile (models : List (String × Device)) (id : String)
    (target : Option String) (profile : Profile) (code : Option String) :
    Except String (List (String × Device)) :=
  match profile.images with
  | none => Except.error "images"
  | some imgs =>
    match getImages imgs with
    | Except.error k => Except.error k
    | Except.ok images =>
      match resolveTarget target profile with
      | Except.error k => Except.error k
      | Except.ok tgt =>
        match profile.titles with
        | none => Except.error "titles"
        | some titles => addTitles id tgt images code models titles

/-- The loop of line 74: `for id in obj["profiles"]: add_profile(...)`. -/
def addProfiles (dtarget : Option String) (code : Option String) :
    List (String × Device) → List (String × Profile) →
    Except String (List (String × Device))
  | models, [] => Except.ok models
  | models, (i, p) :: rest =>
    match add_profile models i dtarget p code with
    | Except.error k => Except.error k
    | Except.ok ms => addProfiles dtarget code ms rest

/-- `obj.get("version_code", obj.get("version_commit"))` (line 63). -/
def entryCode (d : Doc) : Option String :=
  match d.version_code with
  | some c => some c
  | none => d.version_commit

/-- The seeding of line 65-66: a bare `{}` accumulator is replaced by the
three-key output document; an already-seeded accumulator is kept. -/
def seed (out : MergeOut) (code : Option String) (durl : String) :
    Option String × String × List (String × Device) :=
  match out with
  | MergeOut.empty => (code, durl, [])
  | MergeOut.doc v u m => (v, u, m)

/-- One iteration of the `for path, content in profiles.items()` loop
(lines 52-82).  `json.loads` (line 53) and the `metadata_version` access
(line 55) run before the `try` of line 72, so their exceptions are uncaught.
The Python `!=` skip of line 55 is rendered as its `=` mirror.  The caught
`KeyError` arm maps to `.exitMissingKey` (stderr + `exit(1)`). -/
def step (durl : String) (out : MergeOut) (path : String) (e : RawEntry) :
    Except MergeAbort MergeOut :=
  match e with
  | RawEntry.malformed =>
    Except.error (MergeAbort.uncaught path "json.decoder.JSONDecodeError")
  | RawEntry.parsed obj =>
    match obj.metadata_version with
    | none => Except.error (MergeAbort.uncaught path "KeyError metadata_version")
    | some mv =>
      if mv = 1 then
        let code0 := entryCode obj
        match seed out code0 durl with
        | (vc, u, models) =>
          let code := if vc = code0 then none else code0
          match
            (match obj.profiles with
             | some ps => addProfiles obj.target code models ps
             | none =>
               match obj.id with
               | none => Except.error "id"
               | some i =>
                 match obj.target with
                 | none => Except.error "target"
                 | some t => add_profile models i (some t) obj.asProfile code) with
          | Except.error k => Except.error (MergeAbort.exitMissingKey path k)
          | Except.ok ms => Except.ok (MergeOut.doc vc u ms)
      else Except.ok out

/-- Folding `step` over the input mapping in iteration order. -/
def runEntries (durl : String) :
    List (String × RawEntry) → MergeOut → Except MergeAbort MergeOut
  | [], out => Except.ok out
  | (p, e) :: rest, out =>
    match step durl out p e with
    | Except.error r => Except.error r
    | Except.ok out1 => runEntries durl rest out1

/-- `merge_profiles` (lines 20-84): fold all entries starting from `{}`;
`.ok` is the function returning `output`, `.error` the process dying. -/
def merge_profiles (profiles : List (String × RawEntry)) (download_url : String) :
    Except MergeAbort MergeOut :=
  runEntries download_url profiles MergeOut.empty

/-- The first entry that passes the `metadata_version == 1` check, the one
whose code seeds the document-wide `version_code`. -/
def firstPassing : List (String × RawEntry) → Option Doc
  | [] => none
  | (_, RawEntry.malformed) :: _ => none
  | (_, RawEntry.parsed d) :: rest =>
    match d.metadata_version with
    | none => none
    | some mv => if mv = 1 then some d else firstPassing rest

/-- Every entry parses but fails the `metadata_version == 1` check. -/
def allSkipped (entries : List (String × RawEntry)) : Prop :=
  ∀ pe ∈ entries, ∃ d mv, pe.2 = RawEntry.parsed d ∧
    d.metadata_version = some mv ∧ mv ≠ 1

/-! ### Config patcher (`update_config`, lines 87-94) -/

/-- The literal head of the pattern `versions:[\s]*{[^}]*}`. -/
def verLit : List Char := ['v', 'e', 'r', 's', 'i', 'o', 'n', 's', ':']

/-- Consume an exact literal from the head of the input, or fail. -/
def dropLiteral : List Char → List Char → Option (List Char)
  | [], cs => some cs
  | _ :: _, [] => none
  | p :: ps, c :: cs => if c = p then dropLiteral ps cs else none

/-- Match the regex `versions:[\s]*{[^}]*}` at the head of the input and
return the remainder.  Both starred classes are determined (no character of
the class can start the required successor), so greedy matching is a plain
`dropWhile`. -/
def matchVersionsAt (cs : List Char) : Option (List Char) :=
  match dropLiteral verLit cs with
  | none => none
  | some cs1 =>
    match cs1.dropWhile pyWhitespace with
    | [] => none
    | c :: cs2 =>
      if c = '\x7b' then
        match cs2.dropWhile (fun a => !(a = '\x7d')) with
        | [] => none
        | c2 :: rest => if c2 = '\x7d' then some rest else none
      else none

/-- `re.sub("versions:[\s]*{[^}]*}", repl, content)`: leftmost scan,
replacing every non-overlapping match. -/
def subAll (repl : List Char) : List Char → List Char
  | [] => []
  | c :: cs =>
    match h : matchVersionsAt (c :: cs) with
    | some rest => repl ++ subAll repl rest
    | none => c :: subAll repl cs
termination_by l => l.length
decreasing_by
  · have dl : ∀ (ps bs bs1 : List Char), dropLiteral ps bs = some bs1 →
        bs1.length + ps.length = bs.length := by
      intro ps
      induction ps with
      | nil =>
        intro bs bs1 hh
        simp [dropLiteral] at hh
        simp [hh]
      | cons p ps ih =>
        intro bs bs1 hh
        cases bs with
        | nil => simp [dropLiteral] at hh
        | cons b bs' =>
          simp only [dropLiteral] at hh
          split at hh
          · have := ih bs' bs1 hh
            simp [List.length_cons]
            omega
          · simp at hh
    have dw : ∀ (p : Char → Bool) (l : List Char),
        (l.dropWhile p).length ≤ l.length := by
      intro p l
      induction l with
      | nil => simp [List.dropWhile]
      | cons a l ih =>
        by_cases hp : p a
        · simp only [List.dropWhile, hp]
          exact Nat.le_succ_of_le ih
        · simp [List.dropWhile, hp]
    have hlt : ∀ (bs rest1 : List Char), matchVersionsAt bs = some rest1 →
        rest1.length < bs.length := by
      intro bs rest1 hm
      unfold matchVersionsAt at hm
      split at hm
      · simp at hm
      · rename_i cs1 hd
        have hlen : cs1.length + verLit.length = bs.length := dl _ _ _ hd
        have hv : verLit.length = 9 := by decide
        have hw : (cs1.dropWhile pyWhitespace).length ≤ cs1.length :=
          dw pyWhitespace cs1
        split at hm
        · simp at hm
        · rename_i c1 cs2 hw1
          rw [hw1] at hw
          simp only [List.length_cons] at hw
          split at hm
          · have hw2 : (cs2.dropWhile (fun a => !(a = '\x7d'))).length ≤ cs2.length :=
              dw _ cs2
            split at hm
            · simp at hm
            · rename_i c2 rest2 hw3
              rw [hw3] at hw2
              simp only [List.length_cons] at hw2
              split at hm
              · have he : rest2 = rest1 := by simpa using hm
                subst he
                omega
              · simp at hm
          · simp at hm
    exact hlt _ _ h
  · simp only [List.length_cons]
    omega

/-- `update_config` (lines 87-94) on the file content: substitute the
pattern by `"versions: {}".format(versions)` where `versionsRepr` stands for
the Python `str(versions)` of the mapping (it contains no backslash, so the
replacement is literal). -/
def update_config (versionsRepr : String) (content : String) : String :=
  String.mk (subAll ("versions: " ++ versionsRepr).toList content.toList)

/-- A well-formed `versions: {...}` block: the literal `versions:`, then
whitespace, then a brace-delimited body free of closing braces. -/
def versionsBlock (ws body : List Char) : List Char :=
  verLit ++ (ws ++ ('\x7b' :: (body ++ ['\x7d'])))

/-! ### Concrete documents used as witnesses -/

/-- The spec's example single-profile document (spec section 8). -/
def exDoc : Doc :=
  ⟨some 1, some "r1", none, some "x86/64", some "devA",
    some [⟨none, some "Foo", some "Bar", none⟩],
    some [⟨some "foo.img", some "sysupgrade"⟩], none⟩

/-- A second valid single-profile document with a different version code. -/
def exDocB : Doc :=
  ⟨some 1, some "r2", none, some "arm/a9", some "devB",
    some [⟨some "Dev B", none, none, none⟩],
    some [⟨some "b.img", some "factory"⟩], none⟩

/-- The spec's example document with its `images` key removed. -/
def exDocNoImages : Doc :=
  ⟨some 1, some "r1", none, some "x86/64", some "devA",
    some [⟨none, some "Foo", some "Bar", none⟩], none, none⟩

/-- A well-formed document carrying `metadata_version` 2. -/
def exDocV2 : Doc :=
  ⟨some 2, some "r9", none, some "t0", some "dev0",
    some [⟨some "Dev Zero", none, none, none⟩], some [], none⟩

/-- First of two single-profile documents sharing the title "Same Name". -/
def exDocT1 : Doc :=
  ⟨some 1, some "r1", none, some "t1", some "dev1",
    some [⟨some "Same Name", none, none, none⟩], some [], none⟩

/-- Second of two single-profile documents sharing the title "Same Name". -/
def exDocT2 : Doc :=
  ⟨some 1, some "r2", none, some "t2", some "dev2",
    some [⟨some "Same Name", none, none, none⟩], some [], none⟩

/-- A multi-profile bundle whose document-level target and the profile's own
target disagree. -/
def exDocMulti : Doc :=
  ⟨some 1, some "r1", none, some "docTarget", none, none, none,
    some [("pid", ⟨some [], some [⟨some "T X", none, none, none⟩], some "profTarget"⟩)]⟩

/-- A profile with one empty-title entry followed by a good sibling title. -/
def exProfile : Profile :=
  ⟨some [], some [⟨some "", none, none, none⟩, ⟨some "Good", none, none, none⟩],
    some "tg"⟩

/-! ### Lemmas about the models store -/

theorem lookupModel_insertModel_self (ms : List (String × Device)) (t : String)
    (d : Device) : lookupModel (insertModel ms t d) t = some d := by
  induction ms with
  | nil => simp [insertModel, lookupModel]
  | cons hd rest ih =>
    obtain ⟨t1, d1⟩ := hd
    by_cases h : t1 = t
    · simp [insertModel, h, lookupModel]
    · simp [insertModel, h, lookupModel, ih]

theorem lookupModel_insertModel_ne (ms : List (String × Device)) (t t' : String)
    (d : Device) (h : t' ≠ t) :
    lookupModel (insertModel ms t d) t' = lookupModel ms t' := by
  induction ms with
  | nil => simp [insertModel, lookupModel, Ne.symm h]
  | cons hd rest ih =>
    obtain ⟨t1, d1⟩ := hd
    by_cases h1 : t1 = t
    · subst h1
      simp [insertModel, lookupModel, Ne.symm h]
    · simp [insertModel, h1, lookupModel, ih]

/-! ### Lemmas about the merge loop -/

theorem runEntries_append (durl : String) (xs ys : List (String × RawEntry))
    (out : MergeOut) :
    runEntries durl (xs ++ ys) out =
      match runEntries durl xs out with
      | Except.error r => Except.error r
      | Except.ok o => runEntries durl ys o := by
  induction xs generalizing out with
  | nil => simp [runEntries]
  | cons pe rest ih =>
    obtain ⟨p, e⟩ := pe
    simp only [List.cons_append, runEntries]
    cases step durl out p e with
    | error r => simp
    | ok o => simp [ih]

theorem step_skip (durl : String) (out : MergeOut) (p : String) (d : Doc) (mv : Int)
    (h1 : d.metadata_version = some mv) (h2 : mv ≠ 1) :
    step durl out p (RawEntry.parsed d) = Except.ok out := by
  simp [step, h1, h2]

theorem step_doc_header (durl : String) (v : Option String) (u : String)
    (m : List (String × Device)) (p : String) (e : RawEntry) (out1 : MergeOut)
    (h : step durl (MergeOut.doc v u m) p e = Except.ok out1) :
    ∃ m1, out1 = MergeOut.doc v u m1 := by
  cases e with
  | malformed => simp [step] at h
  | parsed d =>
    simp only [step] at h
    split at h
    · simp at h
    · rename_i mv hm
      split at h
      · simp only [seed] at h
        split at h
        · simp at h
        · rename_i ms hms
          exact ⟨ms, by simpa using h.symm⟩
      · exact ⟨m, by simpa using h.symm⟩

theorem runEntries_doc_header (durl : String) (es : List (String × RawEntry)) :
    ∀ (v : Option String) (u : String) (m : List (String × Device)) (out : MergeOut),
      runEntries durl es (MergeOut.doc v u m) = Except.ok out →
      ∃ m1, out = MergeOut.doc v u m1 := by
  induction es with
  | nil =>
    intro v u m out h
    exact ⟨m, by simpa [runEntries] using h.symm⟩
  | cons pe rest ih =>
    intro v u m out h
    obtain ⟨p, e⟩ := pe
    simp only [runEntries] at h
    split at h
    · simp at h
    · rename_i out1 hs
      obtain ⟨m1, rfl⟩ := step_doc_header durl v u m p e out1 hs
      exact ih v u m1 out h

theorem step_seed (durl p : String) (obj : Doc) (out1 : MergeOut)
    (h1 : obj.metadata_version = some 1)
    (h : step durl MergeOut.empty p (RawEntry.parsed obj) = Except.ok out1) :
    ∃ m, out1 = MergeOut.doc (entryCode obj) durl m := by
  simp only [step, h1, seed, if_true] at h
  split at h
  · simp at h
  · rename_i ms hms
    exact ⟨ms, by simpa using h.symm⟩

theorem runEntries_allSkipped (durl : String) (es : List (String × RawEntry)) :
    ∀ out, allSkipped es → runEntries durl es out = Except.ok out := by
  induction es with
  | nil => intro out _; simp [runEntries]
  | cons pe rest ih =>
    intro out h
    obtain ⟨p, e⟩ := pe
    obtain ⟨d, mv, he, hm, hmv⟩ := h (p, e) (List.mem_cons_self _ _)
    simp only at he
    subst he
    simp only [runEntries, step_skip durl out p d mv hm hmv]
    exact ih out (fun pe hpe => h pe (List.mem_cons_of_mem _ hpe))

theorem stringLenZero {t : String} (h : t ≠ "") : ¬(t.length = 0) := by
  intro h0
  apply h
  cases t with
  | mk data =>
    cases data with
    | nil => rfl
    | cons c cs => simp [String.length] at h0

theorem runEntries_append_ok (durl : String) (xs ys : List (String × RawEntry))
    (out o : MergeOut) (h : runEntries durl xs out = Except.ok o) :
    runEntries durl (xs ++ ys) out = runEntries durl ys o := by
  rw [runEntries_append, h]

/-! ### Provenance of the per-device code field -/

theorem addTitles_code (i tgt : String) (oimgs : List OutImage) (c : Option String) :
    ∀ (ts : List TitleEntry) (models ms : List (String × Device)),
      addTitles i tgt oimgs c models ts = Except.ok ms →
      ∀ t dev, lookupModel ms t = some dev →
        lookupModel models t = some dev ∨ dev.code = c := by
  intro ts
  induction ts with
  | nil =>
    intro models ms h t dev hl
    simp only [addTitles] at h
    cases h
    exact Or.inl hl
  | cons e rest ih =>
    intro models ms h t dev hl
    simp only [addTitles] at h
    split at h
    · simp at h
    · rename_i title hti
      split at h
      · exact ih _ _ h t dev hl
      · rcases ih _ _ h t dev hl with hli | hc
        · by_cases ht : t = title
          · subst ht
            rw [lookupModel_insertModel_self] at hli
            have hd : dev = ⟨i, tgt, oimgs, c⟩ := by simpa using hli.symm
            exact Or.inr (by rw [hd])
          · rw [lookupModel_insertModel_ne _ _ _ _ ht] at hli
            exact Or.inl hli
        · exact Or.inr hc

theorem add_profile_code (models : List (String × Device)) (i : String)
    (dt : Option String) (profile : Profile) (c : Option String)
    (ms : List (String × Device))
    (h : add_profile models i dt profile c = Except.ok ms) :
    ∀ t dev, lookupModel ms t = some dev →
      lookupModel models t = some dev ∨ dev.code = c := by
  unfold add_profile at h
  split at h
  · simp at h
  · split at h
    · simp at h
    · split at h
      · simp at h
      · split at h
        · simp at h
        · exact addTitles_code _ _ _ _ _ _ _ h

theorem addProfiles_code (dt c : Option String) :
    ∀ (ps : List (String × Profile)) (models ms : List (String × Device)),
      addProfiles dt c models ps = Except.ok ms →
      ∀ t dev, lookupModel ms t = some dev →
        lookupModel models t = some dev ∨ dev.code = c := by
  intro ps
  induction ps with
  | nil =>
    intro models ms h t dev hl
    simp only [addProfiles] at h
    cases h
    exact Or.inl hl
  | cons ip rest ih =>
    intro models ms h t dev hl
    obtain ⟨i, pr⟩ := ip
    simp only [addProfiles] at h
    split at h
    · simp at h
    · rename_i ms1 h1
      rcases ih _ _ h t dev hl with hl1 | hc
      · exact add_profile_code _ _ _ _ _ _ h1 t dev hl1
      · exact Or.inr hc

theorem step_code (durl : String) (v : Option String) (u p : String)
    (m : List (String × Device)) (d : Doc) (ms1 : List (String × Device))
    (h : step durl (MergeOut.doc v u m) p (RawEntry.parsed d) =
      Except.ok (MergeOut.doc v u ms1)) :
    ∀ t dev, lookupModel ms1 t = some dev →
      lookupModel m t = some dev ∨
        dev.code = (if v = entryCode d then none else entryCode d) := by
  intro t dev hl
  simp only [step] at h
  split at h
  · simp at h
  · rename_i mv hm
    split at h
    · simp only [seed] at h
      split at h
      · simp at h
      · rename_i ms2 hms
        have hm2 : ms2 = ms1 := by simpa using h
        subst hm2
        split at hms
        · exact addProfiles_code _ _ _ _ _ hms t dev hl
        · split at hms
          · simp at hms
          · split at hms
            · simp at hms
            · exact add_profile_code _ _ _ _ _ _ hms t dev hl
    · have hm2 : m = ms1 := by simpa using h
      subst hm2
      exact Or.inl hl

theorem runEntries_first_seed (durl : String) (es : List (String × RawEntry)) :
    ∀ (vc : Option String) (u : String) (ms : List (String × Device)),
      runEntries durl es MergeOut.empty = Except.ok (MergeOut.doc vc u ms) →
      ∃ d, firstPassing es = some d ∧ vc = entryCode d ∧ u = durl := by
  induction es with
  | nil =>
    intro vc u ms h
    simp [runEntries] at h
  | cons pe rest ih =>
    intro vc u ms h
    obtain ⟨p, e⟩ := pe
    simp only [runEntries] at h
    split at h
    · simp at h
    · rename_i out1 hs
      cases e with
      | malformed => simp [step] at hs
      | parsed d =>
        cases hm : d.metadata_version with
        | none => simp [step, hm] at hs
        | some mv =>
          by_cases hmv : mv = 1
          · subst hmv
            obtain ⟨m0, rfl⟩ := step_seed durl p d out1 hm hs
            obtain ⟨m1, hout⟩ :=
              runEntries_doc_header durl rest (entryCode d) durl m0 _ h
            injection hout with hv hu hm1
            exact ⟨d, by simp [firstPassing, hm], hv, hu⟩
          · rw [step_skip durl MergeOut.empty p d mv hm hmv] at hs
            have h0 : out1 = MergeOut.empty := by simpa using hs.symm
            subst h0
            obtain ⟨d0, hfp, hvc, hu⟩ := ih vc u ms h
            exact ⟨d0, by simpa [firstPassing, hm, hmv] using hfp, hvc, hu⟩

/-! ### Claim theorems -/

/-- C1: a single valid single-profile document with one non-empty title
merges into an output whose `models` map has exactly that title, carrying the
document's id and target and the image list reduced to name/type, with no
per-device `code` field. -/
theorem single_profile_merge (url p i tgt t : String) (d : Doc)
    (imgs : List ImageEntry) (oimgs : List OutImage) (e : TitleEntry)
    (h1 : d.metadata_version = some 1) (h2 : d.profiles = none)
    (h3 : d.id = some i) (h4 : d.target = some tgt)
    (h5 : d.images = some imgs) (h6 : getImages imgs = Except.ok oimgs)
    (h7 : d.titles = some [e]) (h8 : get_title e = Except.ok t) (h9 : t ≠ "") :
    merge_profiles [(p, RawEntry.parsed d)] url =
      Except.ok (MergeOut.doc (entryCode d) url [(t, ⟨i, tgt, oimgs, none⟩)]) := by
  have hlen : ¬(t.length = 0) := by
    intro h0
    apply h9
    cases t with
    | mk data =>
      cases data with
      | nil => rfl
      | cons c cs => simp [String.length] at h0
  simp [merge_profiles, runEntries, step, h1, seed, h2, h3, h4, add_profile,
    Doc.asProfile, h5, h6, resolveTarget, h7, addTitles, h8, hlen, insertModel]

/-- Witness for `single_profile_merge`: the spec's example input yields
`models` with the sole key "Foo Bar" mapping to devA/x86-64 and the reduced
image, and no `code` field. -/
theorem single_profile_merge_witness :
    get_title ⟨none, some "Foo", some "Bar", none⟩ = Except.ok "Foo Bar" ∧
    merge_profiles [("profiles.json", RawEntry.parsed exDoc)] "https://dl" =
      Except.ok (MergeOut.doc (some "r1") "https://dl"
        [("Foo Bar", ⟨"devA", "x86/64", [⟨"foo.img", "sysupgrade"⟩], none⟩)]) := by
  refine ⟨rfl, ?_⟩
  exact single_profile_merge "https://dl" "profiles.json" "devA" "x86/64" "Foo Bar"
    exDoc [⟨some "foo.img", some "sysupgrade"⟩] [⟨"foo.img", "sysupgrade"⟩]
    ⟨none, some "Foo", some "Bar", none⟩ rfl rfl rfl rfl rfl rfl rfl rfl (by decide)

/-- C3 (evidence of the code bug): `json.loads` runs before the `try` block,
so the `except JSONDecodeError` handler of line 78 can never fire; a
malformed entry kills the whole run uncaught instead of being skipped, and
the later valid entry is never reached. -/
theorem malformed_json_aborts :
    merge_profiles [("a", RawEntry.malformed), ("b", RawEntry.parsed exDoc)] "u" =
      Except.error (MergeAbort.uncaught "a" "json.decoder.JSONDecodeError") := rfl

/-- C4: an otherwise-parsed document missing a required key aborts the
entire merge immediately through the `exit(1)` path, whatever entries remain;
no output document is produced. -/
theorem missing_key_aborts (url : String) (pre rest : List (String × RawEntry))
    (p : String) (d : Doc) (out : MergeOut) (k : String)
    (h1 : runEntries url pre MergeOut.empty = Except.ok out)
    (h2 : step url out p (RawEntry.parsed d) =
      Except.error (MergeAbort.exitMissingKey p k)) :
    merge_profiles (pre ++ (p, RawEntry.parsed d) :: rest) url =
      Except.error (MergeAbort.exitMissingKey p k) := by
  unfold merge_profiles
  rw [runEntries_append, h1]
  simp [runEntries, h2]

/-- Witness for `missing_key_aborts`: dropping `images` from the example
document aborts with key "images" even though a valid entry follows. -/
theorem missing_key_aborts_witness :
    runEntries "u" [] MergeOut.empty = Except.ok MergeOut.empty ∧
    step "u" MergeOut.empty "f" (RawEntry.parsed exDocNoImages) =
      Except.error (MergeAbort.exitMissingKey "f" "images") ∧
    merge_profiles ([] ++ ("f", RawEntry.parsed exDocNoImages) ::
        [("g", RawEntry.parsed exDoc)]) "u" =
      Except.error (MergeAbort.exitMissingKey "f" "images") :=
  ⟨rfl, rfl, missing_key_aborts "u" [] [("g", RawEntry.parsed exDoc)] "f"
    exDocNoImages MergeOut.empty "images" rfl rfl⟩

/-- C5: an entry whose `metadata_version` is not 1 is skipped without any
effect: the merge of any input containing it equals the merge with the entry
removed, so it contributes no models and never seeds `version_code` or
`download_url`. -/
theorem unsupported_metadata_skipped (p : String) (d : Doc) (mv : Int)
    (h1 : d.metadata_version = some mv) (h2 : mv ≠ 1)
    (url : String) (pre rest : List (String × RawEntry)) :
    merge_profiles (pre ++ (p, RawEntry.parsed d) :: rest) url =
      merge_profiles (pre ++ rest) url := by
  unfold merge_profiles
  rw [runEntries_append, runEntries_append]
  cases hpre : runEntries url pre MergeOut.empty with
  | error r => rfl
  | ok o => simp [runEntries, step_skip url o p d mv h1 h2]

/-- Witness for `unsupported_metadata_skipped` with a version-2 document
between two processed positions. -/
theorem unsupported_metadata_skipped_witness :
    exDocV2.metadata_version = some 2 ∧ (2 : Int) ≠ 1 ∧
    merge_profiles ([("x", RawEntry.parsed exDoc)] ++
        ("y", RawEntry.parsed exDocV2) :: []) "u" =
      merge_profiles ([("x", RawEntry.parsed exDoc)] ++ []) "u" :=
  ⟨rfl, by decide, unsupported_metadata_skipped "y" exDocV2 2 rfl (by decide) "u"
    [("x", RawEntry.parsed exDoc)] []⟩

theorem addTitles_preserve_dev (i tgt : String) (oimgs : List OutImage)
    (c : Option String) :
    ∀ (ts : List TitleEntry) (models ms : List (String × Device)),
      addTitles i tgt oimgs c models ts = Except.ok ms →
      ∀ t, lookupModel models t = some ⟨i, tgt, oimgs, c⟩ →
        lookupModel ms t = some ⟨i, tgt, oimgs, c⟩ := by
  intro ts
  induction ts with
  | nil =>
    intro models ms h t hl
    simp only [addTitles] at h
    cases h
    exact hl
  | cons e rest ih =>
    intro models ms h t hl
    simp only [addTitles] at h
    split at h
    · simp at h
    · rename_i title hti
      split at h
      · exact ih _ _ h t hl
      · apply ih _ _ h t
        by_cases ht : t = title
        · subst ht
          rw [lookupModel_insertModel_self]
        · rw [lookupModel_insertModel_ne _ _ _ _ ht]
          exact hl

theorem addTitles_mem (i tgt : String) (oimgs : List OutImage) (c : Option String) :
    ∀ (ts : List TitleEntry) (models ms : List (String × Device)),
      addTitles i tgt oimgs c models ts = Except.ok ms →
      ∀ e ∈ ts, ∀ t, get_title e = Except.ok t → t ≠ "" →
        lookupModel ms t = some ⟨i, tgt, oimgs, c⟩ := by
  intro ts
  induction ts with
  | nil =>
    intro models ms h e he
    simp at he
  | cons e0 rest ih =>
    intro models ms h e he t hte ht
    simp only [addTitles] at h
    split at h
    · simp at h
    · rename_i title hti
      rcases List.mem_cons.mp he with he0 | her
      · subst he0
        rw [hte] at hti
        have heq : t = title := by simpa using hti
        subst heq
        rw [if_neg (stringLenZero ht)] at h
        exact addTitles_preserve_dev i tgt oimgs c rest _ _ h t
          (lookupModel_insertModel_self _ _ _)
      · split at h
        · exact ih _ _ h e her t hte ht
        · exact ih _ _ h e her t hte ht

theorem addTitles_lookup_empty (i tgt : String) (oimgs : List OutImage)
    (c : Option String) :
    ∀ (ts : List TitleEntry) (models ms : List (String × Device)),
      addTitles i tgt oimgs c models ts = Except.ok ms →
      lookupModel ms "" = lookupModel models "" := by
  intro ts
  induction ts with
  | nil =>
    intro models ms h
    simp only [addTitles] at h
    cases h
    rfl
  | cons e rest ih =>
    intro models ms h
    simp only [addTitles] at h
    split at h
    · simp at h
    · rename_i title hti
      split at h
      · exact ih _ _ h
      · rename_i hlen
        rw [ih _ _ h]
        apply lookupModel_insertModel_ne
        intro he
        apply hlen
        rw [← he]
        rfl

/-- C2: the output's `version_code` is the code of the first entry passing
the metadata check; appending one more passing entry keeps it, and every
model that entry wrote carries `code = none` when its own code equals the
document-wide one and its differing code verbatim otherwise. -/
theorem version_code_dominant (url : String) (entries : List (String × RawEntry))
    (vc : Option String) (u : String) (ms : List (String × Device))
    (h : merge_profiles entries url = Except.ok (MergeOut.doc vc u ms)) :
    (∃ d, firstPassing entries = some d ∧ vc = entryCode d) ∧
    ∀ (p : String) (dd : Doc) (vc1 : Option String) (u1 : String)
      (ms1 : List (String × Device)),
      merge_profiles (entries ++ [(p, RawEntry.parsed dd)]) url =
        Except.ok (MergeOut.doc vc1 u1 ms1) →
      vc1 = vc ∧ ∀ t dev, lookupModel ms1 t = some dev →
        lookupModel ms t = some dev ∨
          dev.code = (if vc = entryCode dd then none else entryCode dd) := by
  unfold merge_profiles at h
  constructor
  · obtain ⟨d, hfp, hvc, _⟩ := runEntries_first_seed url entries vc u ms h
    exact ⟨d, hfp, hvc⟩
  · intro p dd vc1 u1 ms1 h1
    unfold merge_profiles at h1
    rw [runEntries_append_ok url entries [(p, RawEntry.parsed dd)]
      MergeOut.empty _ h] at h1
    simp only [runEntries] at h1
    split at h1
    · simp at h1
    · rename_i out1 hs
      have hout : out1 = MergeOut.doc vc1 u1 ms1 := by simpa using h1
      subst hout
      obtain ⟨m2, hm2⟩ := step_doc_header url vc u ms p (RawEntry.parsed dd) _ hs
      injection hm2 with hv1 hu1 hmm1
      refine ⟨hv1, ?_⟩
      rw [hv1, hu1] at hs
      exact step_code url vc u p ms dd ms1 hs

/-- Witness for `version_code_dominant` at the spec's example document. -/
theorem version_code_dominant_witness :
    merge_profiles [("x", RawEntry.parsed exDoc)] "u" =
      Except.ok (MergeOut.doc (some "r1") "u"
        [("Foo Bar", ⟨"devA", "x86/64", [⟨"foo.img", "sysupgrade"⟩], none⟩)]) ∧
    ((∃ d, firstPassing [("x", RawEntry.parsed exDoc)] = some d ∧
        some "r1" = entryCode d) ∧
     ∀ (p : String) (dd : Doc) (vc1 : Option String) (u1 : String)
       (ms1 : List (String × Device)),
       merge_profiles ([("x", RawEntry.parsed exDoc)] ++ [(p, RawEntry.parsed dd)]) "u" =
         Except.ok (MergeOut.doc vc1 u1 ms1) →
       vc1 = some "r1" ∧ ∀ t dev, lookupModel ms1 t = some dev →
         lookupModel [("Foo Bar",
             (⟨"devA", "x86/64", [⟨"foo.img", "sysupgrade"⟩], none⟩ : Device))] t =
           some dev ∨
           dev.code = (if some "r1" = entryCode dd then none else entryCode dd)) :=
  ⟨rfl, version_code_dominant "u" [("x", RawEntry.parsed exDoc)] (some "r1") "u"
    [("Foo Bar", ⟨"devA", "x86/64", [⟨"foo.img", "sysupgrade"⟩], none⟩)] rfl⟩

/-- C10: when the input mapping is empty or every entry fails the
`metadata_version` check, `merge_profiles` returns the bare `{}` accumulator
(`MergeOut.empty`), which has none of the `version_code`, `download_url` and
`models` keys. -/
theorem all_skipped_empty_output (entries : List (String × RawEntry)) (url : String)
    (h : allSkipped entries) : merge_profiles entries url = Except.ok MergeOut.empty :=
  runEntries_allSkipped url entries MergeOut.empty h

/-- Witness for `all_skipped_empty_output` on a one-entry skipped input (the
empty input follows by the same theorem at `[]`). -/
theorem all_skipped_empty_output_witness :
    allSkipped [("a", RawEntry.parsed exDocV2)] ∧
    merge_profiles [("a", RawEntry.parsed exDocV2)] "u" = Except.ok MergeOut.empty := by
  have hs : allSkipped [("a", RawEntry.parsed exDocV2)] := by
    intro pe hpe
    simp only [List.mem_singleton] at hpe
    subst hpe
    exact ⟨exDocV2, 2, rfl, rfl, by decide⟩
  exact ⟨hs, all_skipped_empty_output _ "u" hs⟩

/-- C6: inside one profile, a title entry computing to the empty string is
omitted (the empty key is never written) while every sibling entry with a
non-empty computed title gets its own `models` entry carrying the profile's
device data. -/
theorem empty_title_skipped (models ms : List (String × Device)) (i tgt : String)
    (dtarget : Option String) (code : Option String) (profile : Profile)
    (imgs : List ImageEntry) (oimgs : List OutImage) (ts : List TitleEntry)
    (h1 : profile.images = some imgs) (h2 : getImages imgs = Except.ok oimgs)
    (h3 : resolveTarget dtarget profile = Except.ok tgt)
    (h4 : profile.titles = some ts)
    (h : add_profile models i dtarget profile code = Except.ok ms) :
    lookupModel ms "" = lookupModel models "" ∧
    ∀ e ∈ ts, ∀ t, get_title e = Except.ok t → t ≠ "" →
      lookupModel ms t = some ⟨i, tgt, oimgs, code⟩ := by
  simp only [add_profile, h1, h2, h3, h4] at h
  exact ⟨addTitles_lookup_empty i tgt oimgs code ts models ms h,
    fun e he t hte ht => addTitles_mem i tgt oimgs code ts models ms h e he t hte ht⟩

/-- Witness for `empty_title_skipped`: the empty-titled entry of `exProfile`
is dropped, its sibling "Good" is kept. -/
theorem empty_title_skipped_witness :
    add_profile [] "idX" none exProfile (some "c9") =
      Except.ok [("Good", ⟨"idX", "tg", [], some "c9"⟩)] ∧
    (lookupModel [("Good", (⟨"idX", "tg", [], some "c9"⟩ : Device))] "" =
        lookupModel [] "" ∧
     ∀ e ∈ [(⟨some "", none, none, none⟩ : TitleEntry),
        ⟨some "Good", none, none, none⟩],
       ∀ t, get_title e = Except.ok t → t ≠ "" →
         lookupModel [("Good", (⟨"idX", "tg", [], some "c9"⟩ : Device))] t =
           some ⟨"idX", "tg", [], some "c9"⟩) :=
  ⟨rfl, empty_title_skipped [] [("Good", ⟨"idX", "tg", [], some "c9"⟩)] "idX" "tg"
    none (some "c9") exProfile [] []
    [⟨some "", none, none, none⟩, ⟨some "Good", none, none, none⟩]
    rfl rfl rfl rfl rfl⟩

/-- C7: when two single-profile documents compute the same display title,
the merged output's sole entry for that title is the one produced by the
later-processed document (unconditional overwrite, last writer wins). -/
theorem title_collision_last_wins (url p1 p2 i1 i2 g1 g2 t : String) (d1 d2 : Doc)
    (imgs1 imgs2 : List ImageEntry) (o1 o2 : List OutImage) (e1 e2 : TitleEntry)
    (ha1 : d1.metadata_version = some 1) (ha2 : d1.profiles = none)
    (ha3 : d1.id = some i1) (ha4 : d1.target = some g1)
    (ha5 : d1.images = some imgs1) (ha6 : getImages imgs1 = Except.ok o1)
    (ha7 : d1.titles = some [e1]) (ha8 : get_title e1 = Except.ok t)
    (hb1 : d2.metadata_version = some 1) (hb2 : d2.profiles = none)
    (hb3 : d2.id = some i2) (hb4 : d2.target = some g2)
    (hb5 : d2.images = some imgs2) (hb6 : getImages imgs2 = Except.ok o2)
    (hb7 : d2.titles = some [e2]) (hb8 : get_title e2 = Except.ok t)
    (h9 : t ≠ "") :
    merge_profiles [(p1, RawEntry.parsed d1), (p2, RawEntry.parsed d2)] url =
      Except.ok (MergeOut.doc (entryCode d1) url
        [(t, ⟨i2, g2, o2,
          if entryCode d1 = entryCode d2 then none else entryCode d2⟩)]) := by
  have hlen := stringLenZero h9
  simp [merge_profiles, runEntries, step, seed, add_profile, Doc.asProfile,
    resolveTarget, addTitles, insertModel, ha1, ha2, ha3, ha4, ha5, ha6, ha7, ha8,
    hb1, hb2, hb3, hb4, hb5, hb6, hb7, hb8, hlen]

/-- Witness for `title_collision_last_wins`: both documents produce the
title "Same Name"; the output keeps dev2 of the second one, with its
differing code preserved. -/
theorem title_collision_last_wins_witness :
    get_title ⟨some "Same Name", none, none, none⟩ = Except.ok "Same Name" ∧
    merge_profiles [("f1", RawEntry.parsed exDocT1), ("f2", RawEntry.parsed exDocT2)]
        "u" =
      Except.ok (MergeOut.doc (some "r1") "u"
        [("Same Name", ⟨"dev2", "t2", [], some "r2"⟩)]) := by
  refine ⟨rfl, ?_⟩
  have h := title_collision_last_wins "u" "f1" "f2" "dev1" "dev2" "t1" "t2"
    "Same Name" exDocT1 exDocT2 [] [] [] []
    ⟨some "Same Name", none, none, none⟩ ⟨some "Same Name", none, none, none⟩
    rfl rfl rfl rfl rfl rfl rfl rfl rfl rfl rfl rfl rfl rfl rfl rfl (by decide)
  rw [if_neg (by decide : ¬(entryCode exDocT1 = entryCode exDocT2))] at h
  exact h

/-- C8 counterexample: in a multi-profile bundle where both the document and
the profile carry a `target`, the output keeps the document-level one, not
the target the profile resolved itself. -/
theorem target_priority_cx :
    merge_profiles [("f", RawEntry.parsed exDocMulti)] "u" =
      Except.ok (MergeOut.doc (some "r1") "u"
        [("T X", ⟨"pid", "docTarget", [], none⟩)]) ∧
    ("docTarget" : String) ≠ "profTarget" :=
  ⟨rfl, by decide⟩

/-- C8 (amended): the display title is the explicit `title` field when
present, otherwise vendor, model and variant joined with single spaces
(absent parts empty) and stripped of surrounding whitespace; and the
document-level target, when present, is used for every profile, the
profile's own `target` being consulted only when the document has none. -/
theorem title_and_target_resolution :
    (∀ (te : TitleEntry) (s : String), te.title = some s →
      get_title te = Except.ok s) ∧
    (∀ (v mva : Option String) (m : String),
      get_title ⟨none, v, some m, mva⟩ =
        Except.ok (pyStrip ((v.getD "") ++ " " ++ m ++ " " ++ (mva.getD "")))) ∧
    (∀ (pr : Profile) (t : String), resolveTarget (some t) pr = Except.ok t) ∧
    (∀ (pr : Profile) (t : String), pr.target = some t →
      resolveTarget none pr = Except.ok t) := by
  refine ⟨?_, ?_, ?_, ?_⟩
  · intro te s h
    simp [get_title, h]
  · intro v mva m
    simp [get_title]
  · intro pr t
    simp [resolveTarget]
  · intro pr t h
    simp [resolveTarget, h]

/-- Witness for `title_and_target_resolution` at concrete title entries and
profiles. -/
theorem title_and_target_resolution_witness :
    ((⟨some "Tl", none, none, none⟩ : TitleEntry).title = some "Tl" ∧
      get_title ⟨some "Tl", none, none, none⟩ = Except.ok "Tl") ∧
    get_title ⟨none, some "Foo", some "Bar", none⟩ =
      Except.ok (pyStrip ("Foo" ++ " " ++ "Bar" ++ " " ++ "")) ∧
    resolveTarget (some "T") exProfile = Except.ok "T" ∧
    (exProfile.target = some "tg" ∧ resolveTarget none exProfile = Except.ok "tg") :=
  ⟨⟨rfl, title_and_target_resolution.1 ⟨some "Tl", none, none, none⟩ "Tl" rfl⟩,
    title_and_target_resolution.2.1 (some "Foo") none "Bar",
    title_and_target_resolution.2.2.1 exProfile "T",
    ⟨rfl, title_and_target_resolution.2.2.2 exProfile "tg" rfl⟩⟩

/-! ### Lemmas about the regex substitution -/

theorem toList_mk (l : List Char) : (String.mk l).toList = l := rfl

theorem dropLiteral_append (ps tl : List Char) :
    dropLiteral ps (ps ++ tl) = some tl := by
  induction ps with
  | nil => simp [dropLiteral]
  | cons p ps ih => simp [dropLiteral, ih]

theorem dropWhile_all_append (p : Char → Bool) (ws l : List Char)
    (h : ∀ c ∈ ws, p c = true) : (ws ++ l).dropWhile p = l.dropWhile p := by
  induction ws with
  | nil => simp
  | cons a ws ih =>
    have ha : p a = true := h a (List.mem_cons_self _ _)
    simp only [List.cons_append, List.dropWhile, ha]
    exact ih (fun c hc => h c (List.mem_cons_of_mem _ hc))

theorem dropWhile_nonbrace (body tl : List Char) (hb : ∀ c ∈ body, c ≠ '\x7d') :
    (body ++ '\x7d' :: tl).dropWhile (fun a => !(a = '\x7d')) = '\x7d' :: tl := by
  induction body with
  | nil => simp [List.dropWhile]
  | cons a body ih =>
    have ha : a ≠ '\x7d' := hb a (List.mem_cons_self _ _)
    simp [List.dropWhile, ha, ih (fun c hc => hb c (List.mem_cons_of_mem _ hc))]

theorem matchVersionsAt_block (ws body tl : List Char)
    (hws : ∀ c ∈ ws, pyWhitespace c = true)
    (hb : ∀ c ∈ body, c ≠ '\x7d') :
    matchVersionsAt (versionsBlock ws body ++ tl) = some tl := by
  have e1 : versionsBlock ws body ++ tl =
      verLit ++ (ws ++ ('\x7b' :: (body ++ ('\x7d' :: tl)))) := by
    simp [versionsBlock]
  rw [e1]
  simp only [matchVersionsAt, dropLiteral_append]
  rw [dropWhile_all_append pyWhitespace ws _ hws]
  simp [List.dropWhile, pyWhitespace, dropWhile_nonbrace body tl hb]

theorem matchVersionsAt_not_v (c : Char) (cs : List Char) (hc : c ≠ 'v') :
    matchVersionsAt (c :: cs) = none := by
  have hd : dropLiteral verLit (c :: cs) = none := by
    simp [verLit, dropLiteral, hc]
  simp [matchVersionsAt, hd]

theorem subAll_pass (repl : List Char) : ∀ (p rest : List Char),
    (∀ c ∈ p, c ≠ 'v') → subAll repl (p ++ rest) = p ++ subAll repl rest := by
  intro p
  induction p with
  | nil => intro rest _; simp
  | cons a p ih =>
    intro rest h
    have ha : a ≠ 'v' := h a (List.mem_cons_self _ _)
    have hm : matchVersionsAt (a :: (p ++ rest)) = none :=
      matchVersionsAt_not_v a (p ++ rest) ha
    simp only [List.cons_append, subAll]
    split
    · rename_i rest1 hsome
      rw [hm] at hsome
      simp at hsome
    · rw [ih rest (fun c hc => h c (List.mem_cons_of_mem _ hc))]

theorem subAll_end (repl p : List Char) (h : ∀ c ∈ p, c ≠ 'v') :
    subAll repl p = p := by
  have h0 := subAll_pass repl p [] h
  simpa [subAll] using h0

theorem subAll_block (repl ws body rest : List Char)
    (hws : ∀ c ∈ ws, pyWhitespace c = true)
    (hb : ∀ c ∈ body, c ≠ '\x7d') :
    subAll repl (versionsBlock ws body ++ rest) = repl ++ subAll repl rest := by
  have hm := matchVersionsAt_block ws body rest hws hb
  have e1 : versionsBlock ws body ++ rest =
      'v' :: (['e', 'r', 's', 'i', 'o', 'n', 's', ':'] ++
        (ws ++ ('\x7b' :: (body ++ ['\x7d'])) ++ rest)) := by
    simp [versionsBlock, verLit]
  rw [e1] at hm ⊢
  simp only [subAll]
  split
  · rename_i rest1 hsome
    rw [hm] at hsome
    have h2 : rest = rest1 := by simpa using hsome
    rw [h2]
  · rename_i hnone
    rw [hm] at hnone
    simp at hnone

theorem subAll_two_blocks (repl p1 ws1 b1 p2 ws2 b2 p3 : List Char)
    (hp1 : ∀ c ∈ p1, c ≠ 'v') (hp2 : ∀ c ∈ p2, c ≠ 'v') (hp3 : ∀ c ∈ p3, c ≠ 'v')
    (hws1 : ∀ c ∈ ws1, pyWhitespace c = true)
    (hws2 : ∀ c ∈ ws2, pyWhitespace c = true)
    (hb1 : ∀ c ∈ b1, c ≠ '\x7d') (hb2 : ∀ c ∈ b2, c ≠ '\x7d') :
    subAll repl
        (p1 ++ (versionsBlock ws1 b1 ++ (p2 ++ (versionsBlock ws2 b2 ++ p3)))) =
      p1 ++ (repl ++ (p2 ++ (repl ++ p3))) := by
  rw [subAll_pass _ _ _ hp1, subAll_block _ _ _ _ hws1 hb1,
    subAll_pass _ _ _ hp2, subAll_block _ _ _ _ hws2 hb2, subAll_end _ _ hp3]

/-- C9 counterexample: a file with two `versions: {...}` blocks has both
rewritten by `update_config`; the later occurrence is not left unchanged. -/
theorem update_config_first_only_cx :
    update_config "\x7bR\x7d" "versions: \x7ba\x7d versions: \x7bb\x7d" =
      "versions: \x7bR\x7d versions: \x7bR\x7d" ∧
    ("versions: \x7bR\x7d versions: \x7bR\x7d" : String) ≠
      "versions: \x7bR\x7d versions: \x7bb\x7d" := by
  constructor
  · have e1 : ("versions: \x7ba\x7d versions: \x7bb\x7d" : String) =
        String.mk ([] ++ (versionsBlock [' '] ['a'] ++
          ([' '] ++ (versionsBlock [' '] ['b'] ++ [])))) := by decide
    rw [e1]
    have h2 : update_config "\x7bR\x7d" (String.mk ([] ++ (versionsBlock [' '] ['a'] ++
          ([' '] ++ (versionsBlock [' '] ['b'] ++ []))))) =
        String.mk ([] ++ (("versions: " ++ "\x7bR\x7d").toList ++
          ([' '] ++ (("versions: " ++ "\x7bR\x7d").toList ++ [])))) := by
      unfold update_config
      exact congrArg String.mk (subAll_two_blocks (("versions: " ++ "\x7bR\x7d").toList)
        [] [' '] ['a'] [' '] [' '] ['b'] [] (by decide) (by decide) (by decide)
        (by decide) (by decide) (by decide) (by decide))
    rw [h2]
    decide
  · decide

/-- C9 (amended): `update_config` replaces every `versions: {...}` block
(leftmost, non-overlapping), not only the first, and leaves a file without
such a block unchanged. -/
theorem update_config_replaces_all (vr : String)
    (p1 ws1 b1 p2 ws2 b2 p3 q : List Char)
    (hp1 : ∀ c ∈ p1, c ≠ 'v') (hp2 : ∀ c ∈ p2, c ≠ 'v') (hp3 : ∀ c ∈ p3, c ≠ 'v')
    (hws1 : ∀ c ∈ ws1, pyWhitespace c = true)
    (hws2 : ∀ c ∈ ws2, pyWhitespace c = true)
    (hb1 : ∀ c ∈ b1, c ≠ '\x7d') (hb2 : ∀ c ∈ b2, c ≠ '\x7d')
    (hq : ∀ c ∈ q, c ≠ 'v') :
    update_config vr (String.mk
        (p1 ++ (versionsBlock ws1 b1 ++ (p2 ++ (versionsBlock ws2 b2 ++ p3))))) =
      String.mk (p1 ++ (("versions: " ++ vr).toList ++
        (p2 ++ (("versions: " ++ vr).toList ++ p3)))) ∧
    update_config vr (String.mk q) = String.mk q := by
  constructor
  · unfold update_config
    exact congrArg String.mk (subAll_two_blocks (("versions: " ++ vr).toList)
      p1 ws1 b1 p2 ws2 b2 p3 hp1 hp2 hp3 hws1 hws2 hb1 hb2)
  · unfold update_config
    exact congrArg String.mk (subAll_end (("versions: " ++ vr).toList) q hq)

/-- Witness for `update_config_replaces_all` on a two-block content and a
block-free content. -/
theorem update_config_replaces_all_witness :
    update_config "M" (String.mk
        (['x'] ++ (versionsBlock [] [] ++
          ([' '] ++ (versionsBlock ['\t'] ['z'] ++ ['y']))))) =
      String.mk (['x'] ++ (("versions: " ++ "M").toList ++
        ([' '] ++ (("versions: " ++ "M").toList ++ ['y'])))) ∧
    update_config "M" (String.mk ['q']) = String.mk ['q'] :=
  update_config_replaces_all "M" ['x'] [] [] [' '] ['\t'] ['z'] ['y'] ['q']
    (by decide) (by decide) (by decide) (by decide) (by decide) (by decide)
    (by decide) (by decide)

end Collect
